import Mathlib

/-!
Verification of the persistence and change-detection core of the
Github-Issue-Extractor repository (`src/storage.py`, `src/tracker.py`).

The Python code is shallowly embedded as follows.

* An issue record is a Python dict produced by the API client
  (`github_client._extract_issue_data`).  A dict key that may be absent is an
  `Option` field; `none` models the key being missing, in which case a direct
  subscript `issue_data['key']` raises `KeyError`.  Fallible operations return
  `Option`, with `none` modelling a raised exception.
* `json.dumps(hash_data, sort_keys=True)` followed by
  `hashlib.sha256(...).hexdigest()` is modelled as the identity on the
  canonical record `HashData`: the serializer is injective on this fixed-key
  structure and the digest is treated as collision-free, so fingerprint
  equality is equality of `HashData` values.
* Python `sorted` on a list of strings sorts by code points; it is modelled by
  an insertion sort over the lexicographic order on `String.data`.  The order
  is total and antisymmetric, so any sort yields the same output list.
* The filesystem is a record of existing directories, existing issue-markdown
  paths, and parsed `.metadata.json` contents per path (`json.load`/`json.dump`
  are modelled as the identity on parsed documents).  Stateful operations take
  and return an `FS`; a fallible stateful operation returns `Option _ × FS`,
  the returned state carrying whatever side effects happened before the raise.
-/

/-- Comment dict as built by the API client; `none` marks an absent key. -/
structure CommentDict where
  author : Option String
  body : Option String
  created_at : Option String
  updated_at : Option String
deriving DecidableEq

/-- Issue dict as built by the API client (`_extract_issue_data`); `none`
marks an absent key. -/
structure IssueDict where
  number : Option Int
  title : Option String
  body : Option String
  state : Option String
  labels : Option (List String)
  author : Option String
  assignees : Option (List String)
  created_at : Option String
  updated_at : Option String
  closed_at : Option String
  url : Option String
  comments : Option (List CommentDict)
  milestone : Option String
deriving DecidableEq

/-- Lexicographic code-point comparison of character lists: this is how
Python compares two `str` values when sorting. -/
def charListLe : List Char → List Char → Bool
  | [], _ => true
  | _ :: _, [] => false
  | a :: as, b :: bs => if a < b then true else if b < a then false else charListLe as bs

/-- Python `s1 <= s2` on strings. -/
def strLe (a b : String) : Bool := charListLe a.data b.data

/-- Insert a string into a list just before the first element it is `strLe`-below:
one step of the sort used to model Python `sorted`. -/
def pyInsert (x : String) : List String → List String
  | [] => [x]
  | y :: ys => if strLe x y then x :: y :: ys else y :: pyInsert x ys

/-- Python `sorted` on a list of strings.  `sorted` is a stable sort under the
total antisymmetric code-point order, so its output is the unique sorted
permutation of the input, which this insertion sort also produces. -/
def pySorted : List String → List String
  | [] => []
  | x :: xs => pyInsert x (pySorted xs)

/-- Projection of one comment performed inside `_calculate_hash` (and the same
three subscripts are performed by `_generate_markdown`): `c['author']`,
`c['body']`, `c['created_at']`.  `none` models a raised `KeyError`. -/
structure HashComment where
  author : String
  body : String
  created_at : String
deriving DecidableEq

def projComment (c : CommentDict) : Option HashComment :=
  match c.author, c.body, c.created_at with
  | some a, some b, some ca => some ⟨a, b, ca⟩
  | _, _, _ => none

def projComments : List CommentDict → Option (List HashComment)
  | [] => some []
  | c :: cs =>
    match projComment c, projComments cs with
    | some hc, some hcs => some (hc :: hcs)
    | _, _ => none

/-- The canonical content record that `IssueStorage._calculate_hash` serializes
and digests.  Fingerprint equality is modelled as equality of this record (see
the header comment). -/
structure HashData where
  number : Int
  title : String
  body : String
  state : String
  labels : List String
  assignees : List String
  updated_at : String
  comments : List HashComment
deriving DecidableEq

namespace IssueStorage

/-- `IssueStorage._calculate_hash`.  Every field access is a direct subscript
in the source, so an absent key raises `KeyError`, modelled by `none`. -/
def calculate_hash (d : IssueDict) : Option HashData :=
  match d.number, d.title, d.body, d.state, d.labels, d.assignees, d.updated_at, d.comments with
  | some n, some t, some b, some s, some ls, some asg, some u, some cs =>
    match projComments cs with
    | some hcs => some ⟨n, t, b, s, pySorted ls, pySorted asg, u, hcs⟩
    | none => none
  | _, _, _, _, _, _, _, _ => none

end IssueStorage

/-- One persisted metadata entry, as written by `_update_metadata`
(`{'hash': ..., 'updated_at': ..., 'state': ...}`).  Hand-written or legacy
entries may miss keys, which the tracker reads back with `.get`, hence the
`Option` fields. -/
structure Entry where
  hash : Option HashData
  updated_at : Option String
  state : Option String
deriving DecidableEq

/-- Filter configuration.  Its contents are never inspected by the storage
layer (saved and loaded wholesale), so keys and values are modelled as plain
strings. -/
abbrev Filters := List (String × String)

/-- A parsed `.metadata.json` document.  Python dict keys are unique; the
document is split into its top-level non-reserved keys (issue entries of the
legacy flat format) and the two reserved keys `"filters"` and `"issues"`,
each `none` when the key is absent.  Key order is irrelevant to every
operation of the source (all access is by key). -/
structure MetaDoc where
  entries : List (String × Entry)
  filters : Option Filters
  issues : Option (List (String × Entry))
deriving DecidableEq

/-- Python dict lookup `d.get(k)` on a string-keyed dict. -/
def dget {α : Type} : List (String × α) → String → Option α
  | [], _ => none
  | (k, v) :: rest, key => if k = key then some v else dget rest key

/-- Python dict assignment `d[k] = v`: replaces the value in place when the
key exists, otherwise appends the new key. -/
def dinsert {α : Type} (k : String) (v : α) : List (String × α) → List (String × α)
  | [] => [(k, v)]
  | (k2, v2) :: rest => if k2 = k then (k, v) :: rest else (k2, v2) :: dinsert k v rest

/-- Boolean membership of a string in a list of strings. -/
def smem (s : String) : List String → Bool
  | [] => false
  | x :: xs => if x = s then true else smem s xs

namespace IssueStorage

/-- `IssueStorage.load_metadata`, acting on the parsed content of the
repository's `.metadata.json` (`none` = the file does not exist).  The
filesystem side effect of the `get_repo_dir` call it performs is carried by
the stateful wrapper `load_metadata_fs` below. -/
def load_metadata (file : Option MetaDoc) : MetaDoc :=
  match file with
  | none => ⟨[], some [], some []⟩
  | some m =>
    if m.filters.isNone then
      ⟨[], some [],
        some (m.entries.filter (fun kv => kv.1 != "filters" && kv.1 != "issues"))⟩
    else m

/-- The pure content transformation of `IssueStorage._update_metadata`: load
the raw file (note: not via `load_metadata`, so no legacy upgrade happens),
ensure the `filters`/`issues` keys exist, and set the entry for this issue.
`none` models a `KeyError` raised by `_calculate_hash` or by the direct
subscripts of `number`, `updated_at`, `state`. -/
def update_metadata (file : Option MetaDoc) (d : IssueDict) : Option MetaDoc :=
  let m0 := file.getD ⟨[], none, none⟩
  let m1 : MetaDoc := ⟨m0.entries, some (m0.filters.getD []), some (m0.issues.getD [])⟩
  match calculate_hash d, d.number, d.updated_at, d.state with
  | some h, some n, some ua, some st =>
    some ⟨m1.entries, m1.filters,
      some (dinsert (toString n) ⟨some h, some ua, some st⟩ (m1.issues.getD []))⟩
  | _, _, _, _ => none

/-- The key subscripts performed by `_generate_markdown`; `none` models a
raised `KeyError`.  The rendered text itself is not modelled: no claim
concerns the document's content, only whether and where it is written. -/
def generate_markdown_fields (d : IssueDict) : Option Unit :=
  match d.number, d.title, d.state, d.labels, d.author, d.created_at,
      d.updated_at, d.assignees, d.url, d.body, d.comments with
  | some _, some _, some _, some _, some _, some _, some _, some _, some _, some _, some cs =>
    match projComments cs with
    | some _ => some ()
    | none => none
  | _, _, _, _, _, _, _, _, _, _, _ => none

end IssueStorage

namespace ChangeTracker

/-- Single-quote character, used in the change-descriptor strings. -/
def sq : String := ⟨[Char.ofNat 39]⟩

/-- `ChangeTracker._detect_issue_changes`.  Both conditions subscript the
current issue (`current_issue['state']`, `current_issue['updated_at']`), so an
absent key raises; the stored entry is read with `.get`. -/
def detect_issue_changes (current : IssueDict) (stored : Entry) : Option (List String) :=
  match current.state, current.updated_at with
  | some st, some ua =>
    let c1 : List String :=
      if stored.state ≠ some st then
        ["State changed from " ++ sq ++ stored.state.getD "unknown" ++ sq ++
          " to " ++ sq ++ st ++ sq]
      else []
    let c2 : List String :=
      if stored.updated_at ≠ some ua then ["Updated at " ++ ua] else []
    let cs := c1 ++ c2
    some (if cs.isEmpty then ["Content modified"] else cs)
  | _, _ => none

/-- The classification produced by `detect_changes`: the three buckets of the
returned dict, an updated item carrying its change-descriptor list. -/
structure Changes where
  new : List IssueDict
  updated : List (IssueDict × List String)
  unchanged : List Int
deriving DecidableEq

/-- The per-issue loop of `ChangeTracker.detect_changes` over the stored
`issues` map.  Each issue is hashed and classified by key membership and
fingerprint comparison; `none` models a `KeyError` raised anywhere in the
pass (Python aborts the whole call, so no partial classification is
observable). -/
def detect_changes_aux (stored : List (String × Entry)) : List IssueDict → Option Changes
  | [] => some ⟨[], [], []⟩
  | issue :: rest =>
    match issue.number, IssueStorage.calculate_hash issue, detect_changes_aux stored rest with
    | some n, some h, some tail =>
      match dget stored (toString n) with
      | none => some ⟨issue :: tail.new, tail.updated, tail.unchanged⟩
      | some e =>
        if e.hash ≠ some h then
          match detect_issue_changes issue e with
          | some det => some ⟨tail.new, (issue, det) :: tail.updated, tail.unchanged⟩
          | none => none
        else some ⟨tail.new, tail.updated, n :: tail.unchanged⟩
    | _, _, _ => none

/-- `ChangeTracker.detect_changes` on the parsed metadata file content:
load the metadata (with legacy upgrade), take its `issues` map (`.get` with
`{}` default), and classify every current issue. -/
def detect_changes (file : Option MetaDoc) (current : List IssueDict) : Option Changes :=
  detect_changes_aux ((IssueStorage.load_metadata file).issues.getD []) current

end ChangeTracker

/-- The filesystem state: existing directories, existing issue-markdown file
paths, and the parsed content of each existing `.metadata.json`. -/
structure FS where
  dirs : List String
  mdFiles : List String
  metaFiles : List (String × MetaDoc)
deriving DecidableEq

/-- `Path.mkdir(exist_ok=True)`. -/
def mkdirExistOk (p : String) (fs : FS) : FS :=
  if smem p fs.dirs then fs else ⟨p :: fs.dirs, fs.mdFiles, fs.metaFiles⟩

namespace IssueStorage

/-- `IssueStorage.__init__`: creates the base directory. -/
def init (base_dir : String) (fs : FS) : FS := mkdirExistOk base_dir fs

/-- The directory-name derivation inside `get_repo_dir`:
`repo_name.replace('/', '-')`. -/
def repo_dir_name (repo_name : String) : String :=
  ⟨repo_name.data.map (fun c => if c = '/' then '-' else c)⟩

/-- `IssueStorage.get_repo_dir`: derives the per-repository directory path and
creates the directory (`mkdir(exist_ok=True)`). -/
def get_repo_dir (base_dir repo_name : String) (fs : FS) : String × FS :=
  let p := base_dir ++ "/" ++ repo_dir_name repo_name
  (p, mkdirExistOk p fs)

/-- The path of the document for one issue, as built by `save_issue` and
`issue_exists`: `repo_dir / f"issue-{number}.md"`. -/
def issue_path (base_dir repo_name : String) (n : Int) : String :=
  base_dir ++ "/" ++ repo_dir_name repo_name ++ "/issue-" ++ toString n ++ ".md"

/-- The path of the repository's metadata document. -/
def metadata_path (base_dir repo_name : String) : String :=
  base_dir ++ "/" ++ repo_dir_name repo_name ++ "/.metadata.json"

/-- Stateful `IssueStorage.load_metadata`. -/
def load_metadata_fs (base_dir repo_name : String) (fs : FS) : MetaDoc × FS :=
  let rp := get_repo_dir base_dir repo_name fs
  (load_metadata (dget rp.2.metaFiles (metadata_path base_dir repo_name)), rp.2)

/-- Stateful `IssueStorage._update_metadata`: raw-load the metadata file,
update this issue's entry, write the file back.  A raised `KeyError` is
`(none, _)`; the file is then not written. -/
def update_metadata_fs (base_dir repo_name : String) (d : IssueDict) (fs : FS) :
    Option Unit × FS :=
  let rp := get_repo_dir base_dir repo_name fs
  let path := metadata_path base_dir repo_name
  match update_metadata (dget rp.2.metaFiles path) d with
  | none => (none, rp.2)
  | some m => (some (), ⟨rp.2.dirs, rp.2.mdFiles, dinsert path m rp.2.metaFiles⟩)

/-- `IssueStorage.save_issue`: create the repository directory, render the
markdown (raising on a missing key before anything is written), write the
document, then update the metadata entry.  The returned path is the document
location on success. -/
def save_issue (base_dir repo_name : String) (d : IssueDict) (fs : FS) :
    Option String × FS :=
  let rp := get_repo_dir base_dir repo_name fs
  match d.number with
  | none => (none, rp.2)
  | some n =>
    let path := issue_path base_dir repo_name n
    match generate_markdown_fields d with
    | none => (none, rp.2)
    | some _ =>
      let fs2 : FS :=
        ⟨rp.2.dirs, if smem path rp.2.mdFiles then rp.2.mdFiles else path :: rp.2.mdFiles,
          rp.2.metaFiles⟩
      match update_metadata_fs base_dir repo_name d fs2 with
      | (none, fs3) => (none, fs3)
      | (some _, fs3) => (some path, fs3)

/-- `IssueStorage.save_filters`: loads the metadata through `load_metadata`
(legacy upgrade applied), replaces the `filters` key wholesale and writes the
document back.  It performs no fallible subscript, so it never raises. -/
def save_filters (base_dir repo_name : String) (filters : Filters) (fs : FS) : FS :=
  let rp := get_repo_dir base_dir repo_name fs
  let path := metadata_path base_dir repo_name
  let lm := load_metadata_fs base_dir repo_name rp.2
  let m2 : MetaDoc := ⟨lm.1.entries, some filters, lm.1.issues⟩
  ⟨lm.2.dirs, lm.2.mdFiles, dinsert path m2 lm.2.metaFiles⟩

/-- `IssueStorage.load_filters`: `load_metadata(...)['filters']` with `{}`
default. -/
def load_filters (base_dir repo_name : String) (fs : FS) : Filters × FS :=
  let lm := load_metadata_fs base_dir repo_name fs
  (lm.1.filters.getD [], lm.2)

/-- `IssueStorage.issue_exists`: checks the document path for existence (after
`get_repo_dir` created the repository directory). -/
def issue_exists (base_dir repo_name : String) (n : Int) (fs : FS) : Bool × FS :=
  let rp := get_repo_dir base_dir repo_name fs
  (smem (issue_path base_dir repo_name n) rp.2.mdFiles, rp.2)

end IssueStorage

/-- Observable on-disk contents of a metadata file over the course of one
CPython `with open(path, 'w') as f: json.dump(..., f)` (as performed by
`_update_metadata` and `save_filters`): the prior content, then the truncated
file produced by `open(..., 'w')`, then the fully written new content.  A
reader (or a crash) between the truncation and the completed write observes
the middle state. -/
def write_file_states (prior : Option String) (content : String) : List (Option String) :=
  [prior, some "", some content]

/-- Occurrence count of a string in a list, used to reason about label and
assignee multisets. -/
def scount (s : String) : List String → Nat
  | [] => 0
  | x :: xs => (if x = s then 1 else 0) + scount s xs

/-! Concrete data used to evaluate the theorems on closed inputs. -/

/-- A fully populated comment dict. -/
def wComment : CommentDict :=
  ⟨some "alice", some "hello", some "2024-01-01T10:00:00", some "2024-01-01T11:00:00"⟩

/-- A fully populated issue dict, as the API client produces. -/
def wIssue : IssueDict :=
  ⟨some 1, some "Bug", some "It crashes", some "open", some ["b", "a"], some "alice",
    some ["zoe", "bob"], some "2024-01-01", some "2024-01-05", none, some "http://x",
    some [wComment], none⟩

/-- The canonical record `_calculate_hash` produces for `wIssue`. -/
def wHash : HashData :=
  ⟨1, "Bug", "It crashes", "open", ["a", "b"], ["bob", "zoe"], "2024-01-05",
    [⟨"alice", "hello", "2024-01-01T10:00:00"⟩]⟩

/-- Three small current issues for a classification pass. -/
def wI1 : IssueDict :=
  ⟨some 1, some "A", some "", some "open", some [], some "u", some [], some "c",
    some "t1", none, some "u1", some [], none⟩

def wI2 : IssueDict :=
  ⟨some 2, some "B", some "", some "closed", some [], some "u", some [], some "c",
    some "t2", none, some "u2", some [], none⟩

def wI3 : IssueDict :=
  ⟨some 3, some "C", some "", some "open", some [], some "u", some [], some "c",
    some "t3", none, some "u3", some [], none⟩

/-- A stored metadata document: issue 2 has a stale fingerprint (same state and
timestamp, so the fallback descriptor fires), issue 3 matches its current
fingerprint, issue 1 is unknown. -/
def wStore : MetaDoc :=
  ⟨[], some [],
    some [("2", ⟨some ⟨2, "Bold", "", "closed", [], [], "t2", []⟩, some "t2", some "closed"⟩),
      ("3", ⟨some ⟨3, "C", "", "open", [], [], "t3", []⟩, some "t3", some "open"⟩)]⟩

/-- The classification the tracker produces for `wStore` and `[wI1, wI2, wI3]`. -/
def wCh : ChangeTracker.Changes :=
  ⟨[wI1], [(wI2, ["Content modified"])], [3]⟩

/-- A legacy flat metadata document holding one entry under key "1". -/
def wLegacy : MetaDoc :=
  ⟨[("1", ⟨some ⟨1, "A", "", "open", [], [], "t1", []⟩, some "t1", some "open"⟩)], none, none⟩

/-- An empty filesystem. -/
def wFS : FS := ⟨[], [], []⟩

/-- The document `_update_metadata` writes when saving issue `wI2` over the
legacy store `wLegacy`: the legacy entry stays at top level, the new `issues`
map holds only issue 2. -/
def wAfter : MetaDoc :=
  ⟨wLegacy.entries, some [],
    some [("2", ⟨some ⟨2, "B", "", "closed", [], [], "t2", []⟩, some "t2", some "closed"⟩)]⟩

/-- `wIssue` with the `body` key removed. -/
def wNoBody : IssueDict :=
  ⟨some 1, some "Bug", none, some "open", some ["b", "a"], some "alice",
    some ["zoe", "bob"], some "2024-01-01", some "2024-01-05", none, some "http://x",
    some [wComment], none⟩

/-- The filesystem after saving `wIssue` into an empty store. -/
def wFS2 : FS := (IssueStorage.save_issue "issues" "acme/widgets" wIssue wFS).2

/-! Helper lemmas about the code-point order and the model of Python `sorted`. -/

theorem charListLe_total : ∀ a b : List Char, charListLe a b = true ∨ charListLe b a = true
  | [], _ => Or.inl rfl
  | _ :: _, [] => Or.inr rfl
  | a :: as, b :: bs => by
    rcases lt_trichotomy a b with h | h | h
    · left; simp [charListLe, h]
    · subst h
      rcases charListLe_total as bs with ih | ih
      · left; simp [charListLe, ih]
      · right; simp [charListLe, ih]
    · right; simp [charListLe, h]

theorem charListLe_trans : ∀ a b c : List Char,
    charListLe a b = true → charListLe b c = true → charListLe a c = true
  | [], _, _ => fun _ _ => rfl
  | _ :: _, [], _ => fun h _ => by simp [charListLe] at h
  | _ :: _, _ :: _, [] => fun _ h => by simp [charListLe] at h
  | a :: as, b :: bs, c :: cs => fun hab hbc => by
    by_cases h1 : a < b
    · by_cases h2 : b < c
      · simp [charListLe, lt_trans h1 h2]
      · by_cases h2' : c < b
        · exfalso; simp [charListLe, h2, h2'] at hbc
        · have hbc2 : b = c := le_antisymm (not_lt.mp h2') (not_lt.mp h2)
          subst hbc2
          simp [charListLe, h1]
    · by_cases h1' : b < a
      · exfalso; simp [charListLe, h1, h1'] at hab
      · have hab2 : a = b := le_antisymm (not_lt.mp h1') (not_lt.mp h1)
        subst hab2
        simp only [charListLe, lt_self_iff_false, if_false] at hab
        by_cases h2 : a < c
        · simp [charListLe, h2]
        · by_cases h2' : c < a
          · exfalso; simp [charListLe, h2, h2'] at hbc
          · have hbc2 : a = c := le_antisymm (not_lt.mp h2') (not_lt.mp h2)
            subst hbc2
            simp only [charListLe, lt_self_iff_false, if_false] at hbc ⊢
            exact charListLe_trans as bs cs hab hbc

theorem charListLe_antisymm : ∀ a b : List Char,
    charListLe a b = true → charListLe b a = true → a = b
  | [], [] => fun _ _ => rfl
  | [], _ :: _ => fun _ h => by simp [charListLe] at h
  | _ :: _, [] => fun h _ => by simp [charListLe] at h
  | a :: as, b :: bs => fun hab hba => by
    by_cases h1 : a < b
    · exfalso; simp [charListLe, h1, lt_asymm h1] at hba
    · by_cases h1' : b < a
      · exfalso; simp [charListLe, h1, h1'] at hab
      · have he : a = b := le_antisymm (not_lt.mp h1') (not_lt.mp h1)
        subst he
        simp only [charListLe, lt_self_iff_false, if_false] at hab hba
        simp [charListLe_antisymm as bs hab hba]

theorem string_data_inj : ∀ {a b : String}, a.data = b.data → a = b := by
  intro a b h
  cases a
  cases b
  exact congrArg String.mk h

theorem pyInsert_perm (x : String) : ∀ l : List String, List.Perm (pyInsert x l) (x :: l)
  | [] => List.Perm.refl _
  | y :: ys => by
    by_cases h : strLe x y = true
    · simp [pyInsert, h]
    · simp only [pyInsert, h, if_false]
      exact ((pyInsert_perm x ys).cons y).trans (List.Perm.swap x y ys)

theorem pySorted_perm : ∀ l : List String, List.Perm (pySorted l) l
  | [] => List.Perm.refl _
  | x :: xs => (pyInsert_perm x (pySorted xs)).trans ((pySorted_perm xs).cons x)

theorem pyInsert_pairwise (x : String) : ∀ {l : List String},
    l.Pairwise (fun a b => strLe a b = true) →
    (pyInsert x l).Pairwise (fun a b => strLe a b = true)
  | [], _ => by simp [pyInsert]
  | y :: ys, h => by
    rw [List.pairwise_cons] at h
    by_cases hxy : strLe x y = true
    · simp only [pyInsert, hxy, if_true]
      refine List.pairwise_cons.mpr ⟨?_, List.pairwise_cons.mpr h⟩
      intro z hz
      rcases List.mem_cons.mp hz with rfl | hz
      · exact hxy
      · exact charListLe_trans _ _ _ hxy (h.1 z hz)
    · simp only [pyInsert, hxy, if_false]
      refine List.pairwise_cons.mpr ⟨?_, pyInsert_pairwise x h.2⟩
      intro z hz
      rcases List.mem_cons.mp ((pyInsert_perm x ys).mem_iff.mp hz) with rfl | hz
      · rcases charListLe_total z.data y.data with ht | ht
        · exact absurd ht hxy
        · exact ht
      · exact h.1 z hz

theorem pySorted_pairwise : ∀ l : List String,
    (pySorted l).Pairwise (fun a b => strLe a b = true)
  | [] => List.Pairwise.nil
  | x :: xs => pyInsert_pairwise x (pySorted_pairwise xs)

theorem pySorted_eq_of_perm {l l2 : List String} (h : List.Perm l l2) :
    pySorted l = pySorted l2 := by
  haveI : IsAntisymm String (fun a b => strLe a b = true) :=
    ⟨fun a b h1 h2 => string_data_inj (charListLe_antisymm _ _ h1 h2)⟩
  exact List.eq_of_perm_of_sorted
    ((pySorted_perm l).trans (h.trans (pySorted_perm l2).symm))
    (pySorted_pairwise l) (pySorted_pairwise l2)

theorem pySorted_perm_of_eq {l l2 : List String} (h : pySorted l = pySorted l2) :
    List.Perm l l2 := by
  have h2 := pySorted_perm l2
  rw [← h] at h2
  exact (pySorted_perm l).symm.trans h2

/-! Helper lemmas about dict operations, counts and the hash projections. -/

theorem scount_perm {l l2 : List String} (h : List.Perm l l2) (s : String) :
    scount s l = scount s l2 := by
  induction h with
  | nil => rfl
  | cons x _ ih => simp only [scount, ih]
  | swap x y l => simp only [scount]; ring
  | trans _ _ ih1 ih2 => exact ih1.trans ih2

theorem scount_set : ∀ (l : List String) (i : Nat) (hi : i < l.length) (y : String),
    y ≠ l.get ⟨i, hi⟩ →
    scount (l.get ⟨i, hi⟩) (l.set i y) + 1 = scount (l.get ⟨i, hi⟩) l
  | [], i, hi, _ => absurd hi (Nat.not_lt_zero i)
  | x :: xs, 0, _, y => fun hy => by
    show scount x (y :: xs) + 1 = scount x (x :: xs)
    simp only [scount]
    rw [if_neg (show y ≠ x from hy)]
    simp
    omega
  | x :: xs, i + 1, hi, y => fun hy => by
    have hi2 : i < xs.length := by simpa using hi
    have hy2 : y ≠ xs.get ⟨i, hi2⟩ := hy
    show scount (xs.get ⟨i, hi2⟩) (x :: xs.set i y) + 1 = scount (xs.get ⟨i, hi2⟩) (x :: xs)
    simp only [scount]
    have := scount_set xs i hi2 y hy2
    omega

theorem dget_dinsert_self {α : Type} (k : String) (v : α) :
    ∀ d : List (String × α), dget (dinsert k v d) k = some v
  | [] => by simp [dinsert, dget]
  | (k2, v2) :: rest => by
    by_cases h : k2 = k
    · simp [dinsert, h, dget]
    · simp [dinsert, h, dget, dget_dinsert_self k v rest]

theorem dget_dinsert_ne {α : Type} (k k2 : String) (v : α) (hne : k2 ≠ k) :
    ∀ d : List (String × α), dget (dinsert k v d) k2 = dget d k2
  | [] => by simp [dinsert, dget, Ne.symm hne]
  | (k3, v3) :: rest => by
    by_cases h : k3 = k
    · subst h
      simp [dinsert, dget, Ne.symm hne]
    · simp [dinsert, h, dget, dget_dinsert_ne k k2 v hne rest]

theorem projComments_isSome : ∀ (cs : List CommentDict),
    (∀ c ∈ cs, (projComment c).isSome) → (projComments cs).isSome
  | [], _ => rfl
  | c :: cs, h => by
    have h1 := h c (List.mem_cons_self c cs)
    have h2 := projComments_isSome cs (fun c2 hc => h c2 (List.mem_cons_of_mem c hc))
    cases hp : projComment c
    · rw [hp] at h1; simp at h1
    · cases hps : projComments cs
      · rw [hps] at h2; simp at h2
      · simp [projComments, hp, hps]

theorem projComments_set : ∀ (cs : List CommentDict) (i : Nat) (hi : i < cs.length)
    (c' : CommentDict) (r r' : List HashComment),
    projComments cs = some r → projComments (cs.set i c') = some r' →
    projComment c' ≠ projComment (cs.get ⟨i, hi⟩) → r ≠ r'
  | [], i, hi, _, _, _ => absurd hi (Nat.not_lt_zero i)
  | c :: cs, 0, _, c', r, r' => fun h1 h2_0 hne_0 => by
    have h2 : projComments (c' :: cs) = some r' := h2_0
    have hne : projComment c' ≠ projComment c := hne_0
    cases hp : projComment c
    · simp [projComments, hp] at h1
    · cases hp' : projComment c'
      · simp [projComments, hp'] at h2
      · cases hcs : projComments cs
        · simp [projComments, hp, hcs] at h1
        · simp only [projComments, hp, hp', hcs] at h1 h2
          rw [hp, hp'] at hne
          injection h1 with h1
          injection h2 with h2
          subst h1
          subst h2
          intro hrr
          injection hrr with hh _
          exact hne (by rw [hh])
  | c :: cs, i + 1, hi, c', r, r' => fun h1 h2_0 hne_0 => by
    have hi2 : i < cs.length := by simpa using hi
    have h2 : projComments (c :: cs.set i c') = some r' := h2_0
    have hne : projComment c' ≠ projComment (cs.get ⟨i, hi2⟩) := hne_0
    cases hp : projComment c
    · simp [projComments, hp] at h1
    · cases hcs : projComments cs
      · simp [projComments, hp, hcs] at h1
      · cases hcs' : projComments (cs.set i c')
        · simp [projComments, hp, hcs'] at h2
        · simp only [projComments, hp, hcs, hcs'] at h1 h2
          injection h1 with h1
          injection h2 with h2
          subst h1
          subst h2
          have := projComments_set cs i (by simpa using hi) c' _ _ hcs hcs' hne
          intro hrr
          injection hrr with _ hh
          exact this hh

theorem string_head_ne {a b : String} (h : a.data.head? ≠ b.data.head?) : a ≠ b :=
  fun he => h (by rw [he])

theorem calculate_hash_spec {d : IssueDict} {h : HashData}
    (hh : IssueStorage.calculate_hash d = some h) :
    d.number = some h.number ∧ d.title = some h.title ∧ d.body = some h.body ∧
    d.state = some h.state ∧
    (∃ ls, d.labels = some ls ∧ h.labels = pySorted ls) ∧
    (∃ asg, d.assignees = some asg ∧ h.assignees = pySorted asg) ∧
    d.updated_at = some h.updated_at ∧
    (∃ cs, d.comments = some cs ∧ projComments cs = some h.comments) := by
  unfold IssueStorage.calculate_hash at hh
  split at hh
  · split at hh
    · injection hh with hh
      subst hh
      rename_i nn tt bb ss lsls aa uu cc hnum htit hbod hsta hlab hasg hupd hcom dX hcsl hproj
      exact ⟨hnum, htit, hbod, hsta, ⟨lsls, hlab, rfl⟩, ⟨aa, hasg, rfl⟩, hupd,
        ⟨cc, hcom, hproj⟩⟩
    · exact absurd hh (by simp)
  · exact absurd hh (by simp)

theorem detect_changes_aux_spec (stored : List (String × Entry)) :
    ∀ (l : List IssueDict) (ch : ChangeTracker.Changes),
    ChangeTracker.detect_changes_aux stored l = some ch →
    ch.new.length + ch.updated.length + ch.unchanged.length = l.length ∧
    (∀ i ∈ l, i ∈ ch.new ∨ (∃ p ∈ ch.updated, p.1 = i) ∨
      (∃ n, i.number = some n ∧ n ∈ ch.unchanged)) ∧
    (∀ i ∈ ch.new, ∃ n, i.number = some n ∧ dget stored (toString n) = none) ∧
    (∀ p ∈ ch.updated, ∃ n e hs, p.1.number = some n ∧
      dget stored (toString n) = some e ∧
      IssueStorage.calculate_hash p.1 = some hs ∧ e.hash ≠ some hs) ∧
    (∀ n ∈ ch.unchanged, ∃ e hs, dget stored (toString n) = some e ∧
      (∃ i ∈ l, i.number = some n ∧ IssueStorage.calculate_hash i = some hs) ∧
      e.hash = some hs)
  | [], ch, h => by
    injection h with h
    subst h
    refine ⟨rfl, ?_, ?_, ?_, ?_⟩ <;> simp
  | issue :: rest, ch, h => by
    simp only [ChangeTracker.detect_changes_aux] at h
    split at h
    case _ =>
      rename_i n hv tail hn hh ht
      have IH := detect_changes_aux_spec stored rest tail ht
      obtain ⟨IHlen, IHcomp, IHnew, IHupd, IHunch⟩ := IH
      split at h
      case _ =>
        rename_i hd
        injection h with h
        subst h
        refine ⟨?_, ?_, ?_, ?_, ?_⟩
        · show (issue :: tail.new).length + tail.updated.length + tail.unchanged.length =
            rest.length + 1
          simp only [List.length_cons]
          omega
        · intro i hi
          rcases List.mem_cons.mp hi with rfl | hi
          · exact Or.inl (List.mem_cons_self _ _)
          · rcases IHcomp i hi with h1 | h2 | h3
            · exact Or.inl (List.mem_cons_of_mem _ h1)
            · exact Or.inr (Or.inl h2)
            · exact Or.inr (Or.inr h3)
        · intro i hi
          rcases List.mem_cons.mp hi with rfl | hi
          · exact ⟨n, hn, hd⟩
          · exact IHnew i hi
        · exact IHupd
        · intro m hm
          obtain ⟨e, hs, h1, ⟨i2, hi2, h2a, h2b⟩, h3⟩ := IHunch m hm
          exact ⟨e, hs, h1, ⟨i2, List.mem_cons_of_mem _ hi2, h2a, h2b⟩, h3⟩
      case _ =>
        rename_i e hd
        by_cases hbe : e.hash = some hv
        · rw [if_neg (not_not_intro hbe)] at h
          injection h with h
          subst h
          refine ⟨?_, ?_, ?_, ?_, ?_⟩
          · show tail.new.length + tail.updated.length + (n :: tail.unchanged).length =
              rest.length + 1
            simp only [List.length_cons]
            omega
          · intro i hi
            rcases List.mem_cons.mp hi with rfl | hi
            · exact Or.inr (Or.inr ⟨n, hn, List.mem_cons_self _ _⟩)
            · rcases IHcomp i hi with h1 | h2 | h3
              · exact Or.inl h1
              · exact Or.inr (Or.inl h2)
              · obtain ⟨m, hm1, hm2⟩ := h3
                exact Or.inr (Or.inr ⟨m, hm1, List.mem_cons_of_mem _ hm2⟩)
          · exact IHnew
          · exact IHupd
          · intro m hm
            rcases List.mem_cons.mp hm with rfl | hm
            · exact ⟨e, hv, hd, ⟨issue, List.mem_cons_self _ _, hn, hh⟩, hbe⟩
            · obtain ⟨e2, hs, h1, ⟨i2, hi2, h2a, h2b⟩, h3⟩ := IHunch m hm
              exact ⟨e2, hs, h1, ⟨i2, List.mem_cons_of_mem _ hi2, h2a, h2b⟩, h3⟩
        · rw [if_pos hbe] at h
          split at h
          case _ =>
            rename_i det hdet
            injection h with h
            subst h
            refine ⟨?_, ?_, ?_, ?_, ?_⟩
            · show tail.new.length + ((issue, det) :: tail.updated).length +
                tail.unchanged.length = rest.length + 1
              simp only [List.length_cons]
              omega
            · intro i hi
              rcases List.mem_cons.mp hi with rfl | hi
              · exact Or.inr (Or.inl ⟨(i, det), List.mem_cons_self _ _, rfl⟩)
              · rcases IHcomp i hi with h1 | h2 | h3
                · exact Or.inl h1
                · obtain ⟨p, hp1, hp2⟩ := h2
                  exact Or.inr (Or.inl ⟨p, List.mem_cons_of_mem _ hp1, hp2⟩)
                · exact Or.inr (Or.inr h3)
            · exact IHnew
            · intro p hp
              rcases List.mem_cons.mp hp with rfl | hp
              · exact ⟨n, e, hv, hn, hd, hh, hbe⟩
              · exact IHupd p hp
            · intro m hm
              obtain ⟨e2, hs, h1, ⟨i2, hi2, h2a, h2b⟩, h3⟩ := IHunch m hm
              exact ⟨e2, hs, h1, ⟨i2, List.mem_cons_of_mem _ hi2, h2a, h2b⟩, h3⟩
          case _ => exact absurd h (by simp)
    case _ => exact absurd h (by simp)

/-- C1: for every sync pass that completes, `detect_changes` partitions the
current issue set totally: the bucket sizes sum to the size of the current
issue set, every current issue lands in at least one bucket, and each bucket's
members satisfy its defining condition — New has no metadata entry for the
identifier, Updated has an entry whose stored fingerprint differs from the
current one, Unchanged has an entry whose stored fingerprint equals the
current one (so the three conditions are mutually exclusive and each issue is
in exactly one bucket). -/
theorem detect_changes_totality (file : Option MetaDoc) (current : List IssueDict)
    (ch : ChangeTracker.Changes)
    (h : ChangeTracker.detect_changes file current = some ch) :
    ch.new.length + ch.updated.length + ch.unchanged.length = current.length ∧
    (∀ i ∈ current, i ∈ ch.new ∨ (∃ p ∈ ch.updated, p.1 = i) ∨
      (∃ n, i.number = some n ∧ n ∈ ch.unchanged)) ∧
    (∀ i ∈ ch.new, ∃ n, i.number = some n ∧
      dget ((IssueStorage.load_metadata file).issues.getD []) (toString n) = none) ∧
    (∀ p ∈ ch.updated, ∃ n e hs, p.1.number = some n ∧
      dget ((IssueStorage.load_metadata file).issues.getD []) (toString n) = some e ∧
      IssueStorage.calculate_hash p.1 = some hs ∧ e.hash ≠ some hs) ∧
    (∀ n ∈ ch.unchanged, ∃ e hs,
      dget ((IssueStorage.load_metadata file).issues.getD []) (toString n) = some e ∧
      (∃ i ∈ current, i.number = some n ∧ IssueStorage.calculate_hash i = some hs) ∧
      e.hash = some hs) :=
  detect_changes_aux_spec _ current ch h

theorem detect_changes_totality_witness :
    wCh.new.length + wCh.updated.length + wCh.unchanged.length = 3 :=
  (detect_changes_totality (some wStore) [wI1, wI2, wI3] wCh (by decide)).1

theorem mkdirExistOk_mdFiles (p : String) (fs : FS) :
    (mkdirExistOk p fs).mdFiles = fs.mdFiles := by
  simp only [mkdirExistOk]
  split <;> rfl

theorem mkdirExistOk_metaFiles (p : String) (fs : FS) :
    (mkdirExistOk p fs).metaFiles = fs.metaFiles := by
  simp only [mkdirExistOk]
  split <;> rfl

/-- C5: a legacy flat metadata document (no `filters`/`issues` keys) loads as
`{filters: {}, issues: E}` where `E` is exactly the legacy top-level entry
map (no data loss); the upgrade happens at read time only — loading never
writes any file. -/
theorem load_metadata_legacy (E : List (String × Entry))
    (hres : ∀ kv ∈ E, kv.1 ≠ "filters" ∧ kv.1 ≠ "issues")
    (base repo : String) (fs : FS) :
    IssueStorage.load_metadata (some ⟨E, none, none⟩) = ⟨[], some [], some E⟩ ∧
    (IssueStorage.load_metadata_fs base repo fs).2.metaFiles = fs.metaFiles ∧
    (IssueStorage.load_metadata_fs base repo fs).2.mdFiles = fs.mdFiles := by
  refine ⟨?_, ?_, ?_⟩
  · have hf : E.filter (fun kv => kv.1 != "filters" && kv.1 != "issues") = E :=
      List.filter_eq_self.mpr (fun kv hkv => by
        obtain ⟨h1, h2⟩ := hres kv hkv
        simp [h1, h2])
    simp only [IssueStorage.load_metadata, Option.isNone_none, if_pos]
    rw [hf]
  · simp only [IssueStorage.load_metadata_fs, IssueStorage.get_repo_dir]
    exact mkdirExistOk_metaFiles _ _
  · simp only [IssueStorage.load_metadata_fs, IssueStorage.get_repo_dir]
    exact mkdirExistOk_mdFiles _ _

/-- C5 witness: the legacy store `wLegacy` upgrades on read into the wrapped
shape with its single entry intact. -/
theorem load_metadata_legacy_witness :
    IssueStorage.load_metadata (some wLegacy) = ⟨[], some [], some wLegacy.entries⟩ :=
  (load_metadata_legacy wLegacy.entries (by decide) "issues" "acme/widgets" wFS).1

/-- C6: the frame property fails on a legacy flat store: before saving, entry
"1" is observable through `load_metadata`'s issues map; `_update_metadata`
then writes `wAfter` (legacy entries left at top level, outside `issues`),
after which entry "1" is no longer observable — the code loses it from the
issues view instead of preserving it. -/
theorem update_metadata_drops_legacy_entries :
    dget ((IssueStorage.load_metadata (some wLegacy)).issues.getD []) "1" ≠ none ∧
    IssueStorage.update_metadata (some wLegacy) wI2 = some wAfter ∧
    dget ((IssueStorage.load_metadata (some wAfter)).issues.getD []) "1" = none := by
  decide

theorem map_sep_inj : ∀ (l1 l2 : List Char), ('-' ∉ l1) → ('-' ∉ l2) →
    l1.map (fun c => if c = '/' then '-' else c) =
      l2.map (fun c => if c = '/' then '-' else c) → l1 = l2
  | [], [], _, _, _ => rfl
  | [], _ :: _, _, _, h => by simp at h
  | _ :: _, [], _, _, h => by simp at h
  | a :: as, b :: bs, h1, h2, h => by
    simp only [List.map, List.cons.injEq] at h
    obtain ⟨hab, htl⟩ := h
    have ha2 : a ≠ '-' := fun hc => h1 (hc ▸ List.mem_cons_self a as)
    have hb2 : b ≠ '-' := fun hc => h2 (hc ▸ List.mem_cons_self b bs)
    have htail := map_sep_inj as bs (fun hc => h1 (List.mem_cons_of_mem a hc))
      (fun hc => h2 (List.mem_cons_of_mem b hc)) htl
    subst htail
    by_cases hA : a = '/' <;> by_cases hB : b = '/'
    · rw [hA, hB]
    · rw [if_pos hA, if_neg hB] at hab
      exact absurd hab.symm hb2
    · rw [if_neg hA, if_pos hB] at hab
      exact absurd hab ha2
    · rw [if_neg hA, if_neg hB] at hab
      rw [hab]

/-- C9 counterexample: two distinct repository identifiers produce the same
directory name — the `/`-to-`-` substitution collides when owner or name
already contains a hyphen, so the mapping is not collision-free. -/
theorem repo_dir_name_collision :
    IssueStorage.repo_dir_name "a/b-c" = IssueStorage.repo_dir_name "a-b/c" ∧
    "a/b-c" ≠ "a-b/c" := by decide

theorem update_metadata_fs_spec {base repo : String} {d : IssueDict} {fs fs3 : FS} {u : Unit}
    (h : IssueStorage.update_metadata_fs base repo d fs = (some u, fs3)) :
    ∃ m, IssueStorage.update_metadata
        (dget (mkdirExistOk (base ++ "/" ++ IssueStorage.repo_dir_name repo) fs).metaFiles
          (IssueStorage.metadata_path base repo)) d = some m ∧
      fs3.mdFiles = fs.mdFiles ∧
      fs3.metaFiles = dinsert (IssueStorage.metadata_path base repo) m
        (mkdirExistOk (base ++ "/" ++ IssueStorage.repo_dir_name repo) fs).metaFiles := by
  simp only [IssueStorage.update_metadata_fs, IssueStorage.get_repo_dir] at h
  split at h
  · simp at h
  · rename_i m hm
    have h2 : fs3 = ⟨(mkdirExistOk (base ++ "/" ++ IssueStorage.repo_dir_name repo) fs).dirs,
        (mkdirExistOk (base ++ "/" ++ IssueStorage.repo_dir_name repo) fs).mdFiles,
        dinsert (IssueStorage.metadata_path base repo) m
          (mkdirExistOk (base ++ "/" ++ IssueStorage.repo_dir_name repo) fs).metaFiles⟩ :=
      (Prod.mk.injEq _ _ _ _ ▸ h).2.symm
    subst h2
    exact ⟨m, hm, mkdirExistOk_mdFiles _ _, rfl⟩

theorem update_metadata_spec {file : Option MetaDoc} {d : IssueDict} {m : MetaDoc}
    (h : IssueStorage.update_metadata file d = some m) :
    ∃ n hsh, d.number = some n ∧ IssueStorage.calculate_hash d = some hsh ∧
      dget (m.issues.getD []) (toString n) = some ⟨some hsh, d.updated_at, d.state⟩ := by
  simp only [IssueStorage.update_metadata] at h
  split at h
  · rename_i hsh n ua st hc hn hu hs
    injection h with h
    subst h
    refine ⟨n, hsh, hn, hc, ?_⟩
    rw [hu, hs]
    exact dget_dinsert_self _ _ _
  · simp at h

theorem save_issue_success_spec {base repo : String} {d : IssueDict} {fs : FS}
    {p : String} {fs2 : FS}
    (h : IssueStorage.save_issue base repo d fs = (some p, fs2)) :
    ∃ n hsh m, d.number = some n ∧ p = IssueStorage.issue_path base repo n ∧
      IssueStorage.calculate_hash d = some hsh ∧
      smem p fs2.mdFiles = true ∧
      dget fs2.metaFiles (IssueStorage.metadata_path base repo) = some m ∧
      dget (m.issues.getD []) (toString n) = some ⟨some hsh, d.updated_at, d.state⟩ ∧
      (smem p fs.mdFiles = true → fs2.mdFiles = fs.mdFiles) ∧
      (smem p fs.mdFiles = false → fs2.mdFiles = p :: fs.mdFiles) := by
  simp only [IssueStorage.save_issue, IssueStorage.get_repo_dir] at h
  split at h
  · simp at h
  · rename_i n hn
    split at h
    · simp at h
    · rename_i uu hmd
      split at h
      · simp at h
      · rename_i uv fs3 hupd
        have hinj := Prod.mk.injEq _ _ _ _ ▸ h
        obtain ⟨hp, hfs⟩ := hinj
        injection hp with hp
        subst hp
        subst hfs
        obtain ⟨m, hm, hmd2, hmeta⟩ := update_metadata_fs_spec hupd
        obtain ⟨n2, hsh, hn2, hc, hdget⟩ := update_metadata_spec hm
        rw [hn] at hn2
        injection hn2 with hn2
        subst hn2
        have hmd3 : fs3.mdFiles =
            (if smem (IssueStorage.issue_path base repo n) fs.mdFiles = true then fs.mdFiles
              else IssueStorage.issue_path base repo n :: fs.mdFiles) := by
          rw [hmd2]
          show (if smem (IssueStorage.issue_path base repo n)
                (mkdirExistOk (base ++ "/" ++ IssueStorage.repo_dir_name repo) fs).mdFiles =
                  true then
              (mkdirExistOk (base ++ "/" ++ IssueStorage.repo_dir_name repo) fs).mdFiles
            else IssueStorage.issue_path base repo n ::
              (mkdirExistOk (base ++ "/" ++ IssueStorage.repo_dir_name repo) fs).mdFiles) = _
          rw [mkdirExistOk_mdFiles]
        refine ⟨n, hsh, m, hn, rfl, hc, ?_, ?_, hdget, ?_, ?_⟩
        · rw [hmd3]
          by_cases hsm : smem (IssueStorage.issue_path base repo n) fs.mdFiles = true
          · rw [if_pos hsm]
            exact hsm
          · rw [if_neg hsm]
            simp [smem]
        · rw [hmeta]
          exact dget_dinsert_self _ _ _
        · intro hsm
          rw [hmd3, if_pos hsm]
        · intro hsm
          rw [hmd3, if_neg (by simp [hsm])]

theorem update_metadata_fs_fail {base repo : String} {d : IssueDict} {fs fs3 : FS}
    (h : IssueStorage.update_metadata_fs base repo d fs = (none, fs3)) :
    fs3.metaFiles = fs.metaFiles ∧ fs3.mdFiles = fs.mdFiles := by
  simp only [IssueStorage.update_metadata_fs, IssueStorage.get_repo_dir] at h
  split at h
  · have h2 := (Prod.mk.injEq _ _ _ _ ▸ h).2
    subst h2
    exact ⟨mkdirExistOk_metaFiles _ _, mkdirExistOk_mdFiles _ _⟩
  · simp at h

/-- C9 (amended): the repository directory derivation is deterministic, and it
is injective on identifiers containing no hyphen (the counterexample shows
hyphenated identifiers can collide); the document location of a successful
save is determined by the repository and the issue identifier alone
(`issue_path`), and re-writing an identifier whose document already exists
overwrites in place — the file set is unchanged, no duplicate is created. -/
theorem repo_dir_name_spec :
    (∀ r1 r2 : String, '-' ∉ r1.data → '-' ∉ r2.data →
      IssueStorage.repo_dir_name r1 = IssueStorage.repo_dir_name r2 → r1 = r2) ∧
    (∀ base repo d fs p fs2, IssueStorage.save_issue base repo d fs = (some p, fs2) →
      ∃ n, d.number = some n ∧ p = IssueStorage.issue_path base repo n) ∧
    (∀ base repo d fs p fs2, IssueStorage.save_issue base repo d fs = (some p, fs2) →
      smem p fs.mdFiles = true → fs2.mdFiles = fs.mdFiles) := by
  refine ⟨?_, ?_, ?_⟩
  · intro r1 r2 h1 h2 he
    have he3 : r1.data.map (fun c => if c = '/' then '-' else c) =
        r2.data.map (fun c => if c = '/' then '-' else c) := congrArg String.data he
    exact string_data_inj (map_sep_inj _ _ h1 h2 he3)
  · intro base repo d fs p fs2 h
    obtain ⟨n, hsh, m, hn, hp, _⟩ := save_issue_success_spec h
    exact ⟨n, hn, hp⟩
  · intro base repo d fs p fs2 h hsm
    obtain ⟨n, hsh, m, hn, hp, hc, hsm2, hdg, hdg2, hpres, _⟩ := save_issue_success_spec h
    exact hpres hsm

/-- C9 witness: the injectivity and path-determinism parts evaluated on
concrete inputs. -/
theorem repo_dir_name_spec_witness :
    "a/b" = "a/b" ∧
    ∃ n, wIssue.number = some n ∧
      "issues/acme-widgets/issue-1.md" = IssueStorage.issue_path "issues" "acme/widgets" n :=
  ⟨repo_dir_name_spec.1 "a/b" "a/b" (by decide) (by decide) (by decide),
    repo_dir_name_spec.2.1 "issues" "acme/widgets" wIssue wFS
      "issues/acme-widgets/issue-1.md" wFS2 (by decide)⟩

/-- C4 counterexample: a metadata save truncates the file in place before
writing the new content, so a reader or crash between the two steps observes
a state (the empty file) that is neither the prior nor the new consistent
document — saves are not atomic. -/
theorem metadata_write_not_atomic :
    ∃ s ∈ write_file_states (some "old") "new", s ≠ some "old" ∧ s ≠ some "new" :=
  ⟨some "", by decide⟩

/-- C4 (amended): the store is written by truncate-then-write in place, so an
interrupted write can expose a partial (empty) document; an uninterrupted
write ends in the new content.  `save_issue` sequences the document write and
the metadata update as one operation: on success both are applied (the
document path exists and the metadata entry holds the new hash, timestamp and
state), and on any failure an error is surfaced while the metadata store is
left untouched — and if the failure precedes the document write, the document
set is untouched too. -/
theorem save_discipline :
    (∀ prior content, (write_file_states prior content).getLast? = some (some content)) ∧
    (∀ base repo d fs p fs2, IssueStorage.save_issue base repo d fs = (some p, fs2) →
      smem p fs2.mdFiles = true ∧
      ∃ n hsh m, d.number = some n ∧ IssueStorage.calculate_hash d = some hsh ∧
        dget fs2.metaFiles (IssueStorage.metadata_path base repo) = some m ∧
        dget (m.issues.getD []) (toString n) =
          some ⟨some hsh, d.updated_at, d.state⟩) ∧
    (∀ base repo d fs fs2, IssueStorage.save_issue base repo d fs = (none, fs2) →
      fs2.metaFiles = fs.metaFiles ∧
      (IssueStorage.generate_markdown_fields d = none → fs2.mdFiles = fs.mdFiles)) := by
  refine ⟨fun prior content => rfl, ?_, ?_⟩
  · intro base repo d fs p fs2 h
    obtain ⟨n, hsh, m, hn, hp, hc, hsm2, hdg, hdg2, _⟩ := save_issue_success_spec h
    exact ⟨hsm2, n, hsh, m, hn, hc, hdg, hdg2⟩
  · intro base repo d fs fs2 h
    simp only [IssueStorage.save_issue, IssueStorage.get_repo_dir] at h
    split at h
    · have h2 := (Prod.mk.injEq _ _ _ _ ▸ h).2
      subst h2
      exact ⟨mkdirExistOk_metaFiles _ _, fun _ => mkdirExistOk_mdFiles _ _⟩
    · rename_i n hn
      split at h
      · have h2 := (Prod.mk.injEq _ _ _ _ ▸ h).2
        subst h2
        exact ⟨mkdirExistOk_metaFiles _ _, fun _ => mkdirExistOk_mdFiles _ _⟩
      · rename_i uu hmd
        split at h
        · rename_i fs3 hupd
          have h2 := (Prod.mk.injEq _ _ _ _ ▸ h).2
          subst h2
          obtain ⟨hmeta, hmdf⟩ := update_metadata_fs_fail hupd
          constructor
          · rw [hmeta]
            show (mkdirExistOk (base ++ "/" ++ IssueStorage.repo_dir_name repo) fs).metaFiles =
              fs.metaFiles
            exact mkdirExistOk_metaFiles _ _
          · intro hgen
            rw [hgen] at hmd
            cases hmd
        · simp at h

/-- C4 witness: the sequencing part evaluated on a concrete successful save:
the document exists and the metadata entry carries the saved fingerprint. -/
theorem save_discipline_witness :
    smem "issues/acme-widgets/issue-1.md" wFS2.mdFiles = true ∧
    ∃ n hsh m, wIssue.number = some n ∧ IssueStorage.calculate_hash wIssue = some hsh ∧
      dget wFS2.metaFiles (IssueStorage.metadata_path "issues" "acme/widgets") = some m ∧
      dget (m.issues.getD []) (toString n) =
        some ⟨some hsh, wIssue.updated_at, wIssue.state⟩ :=
  save_discipline.2.1 "issues" "acme/widgets" wIssue wFS
    "issues/acme-widgets/issue-1.md" wFS2 (by decide)

/-- C10: storage construction and every read that goes through `get_repo_dir`
creates the missing directory: on a never-synced repository, `__init__`
creates the base directory, and `load_metadata`, `load_filters` and
`issue_exists` all return empty results yet leave a newly created (empty)
repository directory behind, while writing no file. -/
theorem storage_reads_create_repo_dir (base repo : String) (n : Int) (fs : FS)
    (hdir : smem (base ++ "/" ++ IssueStorage.repo_dir_name repo) fs.dirs = false)
    (hbase : smem base fs.dirs = false)
    (hfile : dget fs.metaFiles (IssueStorage.metadata_path base repo) = none) :
    (IssueStorage.init base fs).dirs = base :: fs.dirs ∧
    (IssueStorage.load_metadata_fs base repo fs).1 = ⟨[], some [], some []⟩ ∧
    (IssueStorage.load_metadata_fs base repo fs).2.dirs =
      (base ++ "/" ++ IssueStorage.repo_dir_name repo) :: fs.dirs ∧
    (IssueStorage.load_metadata_fs base repo fs).2.mdFiles = fs.mdFiles ∧
    (IssueStorage.load_metadata_fs base repo fs).2.metaFiles = fs.metaFiles ∧
    (IssueStorage.load_filters base repo fs).1 = [] ∧
    (IssueStorage.load_filters base repo fs).2.dirs =
      (base ++ "/" ++ IssueStorage.repo_dir_name repo) :: fs.dirs ∧
    (IssueStorage.issue_exists base repo n fs).2.dirs =
      (base ++ "/" ++ IssueStorage.repo_dir_name repo) :: fs.dirs := by
  refine ⟨?_, ?_, ?_, ?_, ?_, ?_, ?_, ?_⟩
  · simp [IssueStorage.init, mkdirExistOk, hbase]
  · simp only [IssueStorage.load_metadata_fs, IssueStorage.get_repo_dir]
    rw [mkdirExistOk_metaFiles, hfile]
    rfl
  · simp only [IssueStorage.load_metadata_fs, IssueStorage.get_repo_dir]
    simp [mkdirExistOk, hdir]
  · simp only [IssueStorage.load_metadata_fs, IssueStorage.get_repo_dir]
    exact mkdirExistOk_mdFiles _ _
  · simp only [IssueStorage.load_metadata_fs, IssueStorage.get_repo_dir]
    exact mkdirExistOk_metaFiles _ _
  · simp only [IssueStorage.load_filters, IssueStorage.load_metadata_fs,
      IssueStorage.get_repo_dir]
    rw [mkdirExistOk_metaFiles, hfile]
    rfl
  · simp only [IssueStorage.load_filters, IssueStorage.load_metadata_fs,
      IssueStorage.get_repo_dir]
    simp [mkdirExistOk, hdir]
  · simp only [IssueStorage.issue_exists, IssueStorage.get_repo_dir]
    simp [mkdirExistOk, hdir]

/-- C10 witness: querying the metadata of `acme/widgets` on an empty
filesystem returns the empty structure and creates the repository
directory. -/
theorem storage_reads_create_repo_dir_witness :
    (IssueStorage.load_metadata_fs "issues" "acme/widgets" wFS).1 = ⟨[], some [], some []⟩ ∧
    (IssueStorage.load_metadata_fs "issues" "acme/widgets" wFS).2.dirs =
      ["issues/acme-widgets"] :=
  ⟨(storage_reads_create_repo_dir "issues" "acme/widgets" 5 wFS
      (by decide) (by decide) (by decide)).2.1,
    (storage_reads_create_repo_dir "issues" "acme/widgets" 5 wFS
      (by decide) (by decide) (by decide)).2.2.1⟩

theorem state_msg_head (old st : String) :
    ("State changed from " ++ ChangeTracker.sq ++ old ++ ChangeTracker.sq ++ " to " ++
      ChangeTracker.sq ++ st ++ ChangeTracker.sq).data.head? = some 'S' := by
  simp only [String.data_append]
  rfl

theorem updated_msg_head (ua : String) :
    ("Updated at " ++ ua).data.head? = some 'U' := by
  simp only [String.data_append]
  rfl

/-- C7: for an issue classified Updated, the descriptor list contains the
state-change descriptor exactly when the stored state differs from the
current one, the updated-at descriptor exactly when the stored timestamp
differs (the two conditions independent, not mutually exclusive), and the
"Content modified" fallback exactly when neither fired — so the list is never
empty. -/
theorem detect_issue_changes_spec (cur : IssueDict) (stored : Entry) (st ua : String)
    (hst : cur.state = some st) (hua : cur.updated_at = some ua) :
    ∃ ds, ChangeTracker.detect_issue_changes cur stored = some ds ∧
      (("State changed from " ++ ChangeTracker.sq ++ stored.state.getD "unknown" ++
          ChangeTracker.sq ++ " to " ++ ChangeTracker.sq ++ st ++ ChangeTracker.sq) ∈ ds ↔
        stored.state ≠ some st) ∧
      (("Updated at " ++ ua) ∈ ds ↔ stored.updated_at ≠ some ua) ∧
      ("Content modified" ∈ ds ↔ (stored.state = some st ∧ stored.updated_at = some ua)) ∧
      ds ≠ [] := by
  have hSC : ∀ old : String, ("State changed from " ++ ChangeTracker.sq ++ old ++
      ChangeTracker.sq ++ " to " ++ ChangeTracker.sq ++ st ++ ChangeTracker.sq) ≠
      "Content modified" :=
    fun old => string_head_ne (by rw [state_msg_head]; decide)
  have hUC : ("Updated at " ++ ua) ≠ "Content modified" :=
    string_head_ne (by rw [updated_msg_head]; decide)
  have hSU : ∀ old : String, ("State changed from " ++ ChangeTracker.sq ++ old ++
      ChangeTracker.sq ++ " to " ++ ChangeTracker.sq ++ st ++ ChangeTracker.sq) ≠
      ("Updated at " ++ ua) :=
    fun old => string_head_ne (by rw [state_msg_head, updated_msg_head]; decide)
  simp only [ChangeTracker.detect_issue_changes, hst, hua]
  by_cases h1 : stored.state = some st <;> by_cases h2 : stored.updated_at = some ua
  · refine ⟨["Content modified"], ?_, ?_, ?_, ?_, ?_⟩
    · simp [h1, h2]
    · simp [hSC, h1]
    · simp [hUC, h2]
    · simp [h1, h2]
    · simp
  · refine ⟨["Updated at " ++ ua], ?_, ?_, ?_, ?_, ?_⟩
    · simp [h1, h2]
    · simp [hSU, h1]
    · simp [h2]
    · simp [Ne.symm hUC, h2]
    · simp
  · refine ⟨["State changed from " ++ ChangeTracker.sq ++ stored.state.getD "unknown" ++
      ChangeTracker.sq ++ " to " ++ ChangeTracker.sq ++ st ++ ChangeTracker.sq], ?_, ?_, ?_, ?_, ?_⟩
    · simp [h1, h2]
    · simp [h1]
    · simp [Ne.symm (hSU _), h2]
    · simp [Ne.symm (hSC _), h1]
    · simp
  · refine ⟨["State changed from " ++ ChangeTracker.sq ++ stored.state.getD "unknown" ++
      ChangeTracker.sq ++ " to " ++ ChangeTracker.sq ++ st ++ ChangeTracker.sq,
      "Updated at " ++ ua], ?_, ?_, ?_, ?_, ?_⟩
    · simp [h1, h2]
    · simp [h1]
    · simp [h2]
    · simp [Ne.symm (hSC _), Ne.symm hUC, h1]
    · simp

/-- C7 witness: an Updated issue whose stored state and timestamp both differ
from the current ones receives both descriptors. -/
theorem detect_issue_changes_spec_witness :
    ∃ ds, ChangeTracker.detect_issue_changes wI2 ⟨none, some "t1", some "open"⟩ = some ds ∧
      (("State changed from " ++ ChangeTracker.sq ++ "open" ++ ChangeTracker.sq ++ " to " ++
        ChangeTracker.sq ++ "closed" ++ ChangeTracker.sq) ∈ ds ↔
        (some "open" : Option String) ≠ some "closed") ∧
      (("Updated at " ++ "t2") ∈ ds ↔ (some "t1" : Option String) ≠ some "t2") ∧
      ("Content modified" ∈ ds ↔ ((some "open" : Option String) = some "closed" ∧
        (some "t1" : Option String) = some "t2")) ∧
      ds ≠ [] :=
  detect_issue_changes_spec wI2 ⟨none, some "t1", some "open"⟩ "closed" "t2"
    (by decide) (by decide)

/-- C8 counterexample: `_calculate_hash` throws (KeyError) on a record whose
optional `body` field is absent instead of substituting an empty string: the
same record with `body` present hashes fine, the one without it raises. -/
theorem calculate_hash_missing_body_raises :
    wNoBody.body = none ∧
    IssueStorage.calculate_hash wIssue = some wHash ∧
    IssueStorage.calculate_hash wNoBody = none := by decide

/-- C8 (amended): `_calculate_hash` raises KeyError exactly when one of the
fields it hashes (number, title, body, state, labels, assignees, updated_at,
comments, or a comment's author/body/created_at) is absent — no empty-value
substitution happens; it does not throw when all hashed fields are present
(url, milestone, author, created_at and closed_at may be absent). -/
theorem calculate_hash_error_path :
    (∀ d : IssueDict, (d.number = none ∨ d.title = none ∨ d.body = none ∨
        d.state = none ∨ d.labels = none ∨ d.assignees = none ∨
        d.updated_at = none ∨ d.comments = none) →
      IssueStorage.calculate_hash d = none) ∧
    (∀ d : IssueDict, d.number.isSome → d.title.isSome → d.body.isSome →
      d.state.isSome → d.labels.isSome → d.assignees.isSome → d.updated_at.isSome →
      d.comments.isSome → (∀ c ∈ d.comments.getD [], (projComment c).isSome) →
      (IssueStorage.calculate_hash d).isSome) := by
  constructor
  · intro d hd
    cases hcc : IssueStorage.calculate_hash d with
    | none => rfl
    | some h =>
      exfalso
      obtain ⟨s1, s2, s3, s4, ⟨ls, hls, -⟩, ⟨asg, hasg, -⟩, s7, ⟨cs, hcs, -⟩⟩ :=
        calculate_hash_spec hcc
      rcases hd with h | h | h | h | h | h | h | h <;> simp_all
  · intro d h1 h2 h3 h4 h5 h6 h7 h8 h9
    obtain ⟨n, hn⟩ := Option.isSome_iff_exists.mp h1
    obtain ⟨t, ht⟩ := Option.isSome_iff_exists.mp h2
    obtain ⟨b, hb⟩ := Option.isSome_iff_exists.mp h3
    obtain ⟨s, hs⟩ := Option.isSome_iff_exists.mp h4
    obtain ⟨ls, hls⟩ := Option.isSome_iff_exists.mp h5
    obtain ⟨asg, hasg⟩ := Option.isSome_iff_exists.mp h6
    obtain ⟨u, hu⟩ := Option.isSome_iff_exists.mp h7
    obtain ⟨cs, hcs⟩ := Option.isSome_iff_exists.mp h8
    rw [hcs] at h9
    simp only [Option.getD_some] at h9
    obtain ⟨r, hr⟩ := Option.isSome_iff_exists.mp (projComments_isSome cs h9)
    simp [IssueStorage.calculate_hash, hn, ht, hb, hs, hls, hasg, hu, hcs, hr]

/-- C8 witness: the no-throw direction evaluated at a fully populated
record. -/
theorem calculate_hash_error_path_witness :
    (IssueStorage.calculate_hash wIssue).isSome :=
  calculate_hash_error_path.2 wIssue (by decide) (by decide) (by decide) (by decide)
    (by decide) (by decide) (by decide) (by decide) (by decide)

theorem projComment_spec {c : CommentDict} {pc : HashComment}
    (h : projComment c = some pc) :
    c.author = some pc.author ∧ c.body = some pc.body ∧ c.created_at = some pc.created_at := by
  unfold projComment at h
  split at h
  · injection h with h
    subst h
    rename_i a b ca ha hb hca
    exact ⟨ha, hb, hca⟩
  · exact absurd h (by simp)

theorem projComments_mem_isSome : ∀ {cs : List CommentDict} {r : List HashComment},
    projComments cs = some r → ∀ c ∈ cs, (projComment c).isSome
  | [], _, _, c, hc => absurd hc (by simp)
  | c0 :: cs, r, h, c, hc => by
    cases hp : projComment c0 with
    | none => simp [projComments, hp] at h
    | some pc =>
      cases hps : projComments cs with
      | none => simp [projComments, hp, hps] at h
      | some rs =>
        rcases List.mem_cons.mp hc with rfl | hc2
        · simp [hp]
        · exact projComments_mem_isSome hps c hc2

theorem calculate_hash_build {d : IssueDict} {n : Int} {t b s : String}
    {ls asg : List String} {u : String} {cs : List CommentDict} {r : List HashComment}
    (hn : d.number = some n) (ht : d.title = some t) (hb : d.body = some b)
    (hs : d.state = some s) (hls : d.labels = some ls) (hasg : d.assignees = some asg)
    (hu : d.updated_at = some u) (hcs : d.comments = some cs)
    (hr : projComments cs = some r) :
    IssueStorage.calculate_hash d =
      some ⟨n, t, b, s, pySorted ls, pySorted asg, u, r⟩ := by
  simp [IssueStorage.calculate_hash, hn, ht, hb, hs, hls, hasg, hu, hcs, hr]

/-- C2: the fingerprint is sensitive to every hashed field — changing title,
body, state, any one label, any one assignee, updated_at, or any comment's
author/body/created_at yields a different fingerprint — while changing only
url or milestone leaves it unchanged. -/
theorem hash_sensitivity :
    (∀ (d : IssueDict) (t2 : String) (h h2 : HashData),
      IssueStorage.calculate_hash d = some h →
      IssueStorage.calculate_hash { d with title := some t2 } = some h2 →
      d.title ≠ some t2 → h ≠ h2) ∧
    (∀ (d : IssueDict) (b2 : String) (h h2 : HashData),
      IssueStorage.calculate_hash d = some h →
      IssueStorage.calculate_hash { d with body := some b2 } = some h2 →
      d.body ≠ some b2 → h ≠ h2) ∧
    (∀ (d : IssueDict) (s2 : String) (h h2 : HashData),
      IssueStorage.calculate_hash d = some h →
      IssueStorage.calculate_hash { d with state := some s2 } = some h2 →
      d.state ≠ some s2 → h ≠ h2) ∧
    (∀ (d : IssueDict) (u2 : String) (h h2 : HashData),
      IssueStorage.calculate_hash d = some h →
      IssueStorage.calculate_hash { d with updated_at := some u2 } = some h2 →
      d.updated_at ≠ some u2 → h ≠ h2) ∧
    (∀ (d : IssueDict) (ls : List String) (i : Nat) (hi : i < ls.length) (y : String)
      (h h2 : HashData), d.labels = some ls → y ≠ ls.get ⟨i, hi⟩ →
      IssueStorage.calculate_hash d = some h →
      IssueStorage.calculate_hash { d with labels := some (ls.set i y) } = some h2 →
      h ≠ h2) ∧
    (∀ (d : IssueDict) (asg : List String) (i : Nat) (hi : i < asg.length) (y : String)
      (h h2 : HashData), d.assignees = some asg → y ≠ asg.get ⟨i, hi⟩ →
      IssueStorage.calculate_hash d = some h →
      IssueStorage.calculate_hash { d with assignees := some (asg.set i y) } = some h2 →
      h ≠ h2) ∧
    (∀ (d : IssueDict) (cs : List CommentDict) (i : Nat) (hi : i < cs.length)
      (c2 : CommentDict) (h h2 : HashData), d.comments = some cs →
      (c2.author ≠ (cs.get ⟨i, hi⟩).author ∨ c2.body ≠ (cs.get ⟨i, hi⟩).body ∨
        c2.created_at ≠ (cs.get ⟨i, hi⟩).created_at) →
      IssueStorage.calculate_hash d = some h →
      IssueStorage.calculate_hash { d with comments := some (cs.set i c2) } = some h2 →
      h ≠ h2) ∧
    (∀ (d : IssueDict) (u m : Option String),
      IssueStorage.calculate_hash { d with url := u, milestone := m } =
        IssueStorage.calculate_hash d) := by
  refine ⟨?_, ?_, ?_, ?_, ?_, ?_, ?_, ?_⟩
  · intro d t2 h h2 hc1 hc2 hne heq
    subst heq
    obtain ⟨-, s2, -, -, -, -, -, -⟩ := calculate_hash_spec hc1
    obtain ⟨-, s2b, -, -, -, -, -, -⟩ := calculate_hash_spec hc2
    have s2c : some t2 = some h.title := s2b
    injection s2c with s2c
    exact hne (by rw [s2c]; exact s2)
  · intro d b2 h h2 hc1 hc2 hne heq
    subst heq
    obtain ⟨-, -, s3, -, -, -, -, -⟩ := calculate_hash_spec hc1
    obtain ⟨-, -, s3b, -, -, -, -, -⟩ := calculate_hash_spec hc2
    have s3c : some b2 = some h.body := s3b
    injection s3c with s3c
    exact hne (by rw [s3c]; exact s3)
  · intro d s2v h h2 hc1 hc2 hne heq
    subst heq
    obtain ⟨-, -, -, s4, -, -, -, -⟩ := calculate_hash_spec hc1
    obtain ⟨-, -, -, s4b, -, -, -, -⟩ := calculate_hash_spec hc2
    have s4c : some s2v = some h.state := s4b
    injection s4c with s4c
    exact hne (by rw [s4c]; exact s4)
  · intro d u2 h h2 hc1 hc2 hne heq
    subst heq
    obtain ⟨-, -, -, -, -, -, s7, -⟩ := calculate_hash_spec hc1
    obtain ⟨-, -, -, -, -, -, s7b, -⟩ := calculate_hash_spec hc2
    have s7c : some u2 = some h.updated_at := s7b
    injection s7c with s7c
    exact hne (by rw [s7c]; exact s7)
  · intro d ls i hi y h h2 hls hy hc1 hc2 heq
    subst heq
    obtain ⟨-, -, -, -, ⟨ls1, hls1, hlab1⟩, -, -, -⟩ := calculate_hash_spec hc1
    obtain ⟨-, -, -, -, ⟨ls2, hls2, hlab2⟩, -, -, -⟩ := calculate_hash_spec hc2
    rw [hls] at hls1
    injection hls1 with hls1
    subst hls1
    have hls2b : some (ls.set i y) = some ls2 := hls2
    injection hls2b with hls2b
    subst hls2b
    have hsorteq : pySorted ls = pySorted (ls.set i y) := by rw [← hlab1, hlab2]
    have hcount := scount_perm (pySorted_perm_of_eq hsorteq) (ls.get ⟨i, hi⟩)
    have hset := scount_set ls i hi y hy
    omega
  · intro d asg i hi y h h2 hasg hy hc1 hc2 heq
    subst heq
    obtain ⟨-, -, -, -, -, ⟨as1, has1, hasg1⟩, -, -⟩ := calculate_hash_spec hc1
    obtain ⟨-, -, -, -, -, ⟨as2, has2, hasg2⟩, -, -⟩ := calculate_hash_spec hc2
    rw [hasg] at has1
    injection has1 with has1
    subst has1
    have has2b : some (asg.set i y) = some as2 := has2
    injection has2b with has2b
    subst has2b
    have hsorteq : pySorted asg = pySorted (asg.set i y) := by rw [← hasg1, hasg2]
    have hcount := scount_perm (pySorted_perm_of_eq hsorteq) (asg.get ⟨i, hi⟩)
    have hset := scount_set asg i hi y hy
    omega
  · intro d cs i hi c2 h h2 hcs hfield hc1 hc2 heq
    subst heq
    obtain ⟨-, -, -, -, -, -, -, ⟨cs1, hcs1, hpc1⟩⟩ := calculate_hash_spec hc1
    obtain ⟨-, -, -, -, -, -, -, ⟨cs2, hcs2, hpc2⟩⟩ := calculate_hash_spec hc2
    rw [hcs] at hcs1
    injection hcs1 with hcs1
    subst hcs1
    have hcs2b : some (cs.set i c2) = some cs2 := hcs2
    injection hcs2b with hcs2b
    subst hcs2b
    by_cases hne : projComment c2 = projComment (cs.get ⟨i, hi⟩)
    · have hget := projComments_mem_isSome hpc1 (cs.get ⟨i, hi⟩) (List.get_mem cs i hi)
      obtain ⟨pc, hpc⟩ := Option.isSome_iff_exists.mp hget
      rw [hpc] at hne
      obtain ⟨ha1, hb1, hca1⟩ := projComment_spec hpc
      obtain ⟨ha2, hb2, hca2⟩ := projComment_spec hne
      rcases hfield with hf | hf | hf
      · exact hf (by rw [ha1, ha2])
      · exact hf (by rw [hb1, hb2])
      · exact hf (by rw [hca1, hca2])
    · exact projComments_set cs i hi c2 _ _ hpc1 hpc2 hne rfl
  · intro d u m
    rfl

/-- C2 witness: changing the title of `wIssue` changes the fingerprint;
changing only url and milestone does not. -/
theorem hash_sensitivity_witness :
    wHash ≠ ⟨1, "Bug2", "It crashes", "open", ["a", "b"], ["bob", "zoe"], "2024-01-05",
      [⟨"alice", "hello", "2024-01-01T10:00:00"⟩]⟩ ∧
    IssueStorage.calculate_hash { wIssue with url := some "http://y", milestone := some "v2" } =
      IssueStorage.calculate_hash wIssue :=
  ⟨hash_sensitivity.1 wIssue "Bug2" wHash
      ⟨1, "Bug2", "It crashes", "open", ["a", "b"], ["bob", "zoe"], "2024-01-05",
        [⟨"alice", "hello", "2024-01-01T10:00:00"⟩]⟩
      (by decide) (by decide) (by decide),
    hash_sensitivity.2.2.2.2.2.2.2 wIssue (some "http://y") (some "v2")⟩

/-- C3: the fingerprint is deterministic — it depends only on the hashed
fields (so repeated calls and differing in-memory representation of the other
fields give the same digest), it is invariant under any permutation of the
labels list and of the assignees list, and it is sensitive to the order of
the comments sequence (any reordering that changes the projected comment
sequence changes the digest). -/
theorem hash_determinism :
    (∀ d d2 : IssueDict, d.number = d2.number → d.title = d2.title → d.body = d2.body →
      d.state = d2.state → d.labels = d2.labels → d.assignees = d2.assignees →
      d.updated_at = d2.updated_at → d.comments = d2.comments →
      IssueStorage.calculate_hash d = IssueStorage.calculate_hash d2) ∧
    (∀ (d : IssueDict) (ls ls2 : List String) (h : HashData), d.labels = some ls →
      List.Perm ls2 ls → IssueStorage.calculate_hash d = some h →
      IssueStorage.calculate_hash { d with labels := some ls2 } = some h) ∧
    (∀ (d : IssueDict) (asg asg2 : List String) (h : HashData), d.assignees = some asg →
      List.Perm asg2 asg → IssueStorage.calculate_hash d = some h →
      IssueStorage.calculate_hash { d with assignees := some asg2 } = some h) ∧
    (∀ (d : IssueDict) (cs cs2 : List CommentDict) (h h2 : HashData),
      d.comments = some cs → IssueStorage.calculate_hash d = some h →
      IssueStorage.calculate_hash { d with comments := some cs2 } = some h2 →
      projComments cs ≠ projComments cs2 → h ≠ h2) := by
  refine ⟨?_, ?_, ?_, ?_⟩
  · intro d d2 e1 e2 e3 e4 e5 e6 e7 e8
    unfold IssueStorage.calculate_hash
    rw [e1, e2, e3, e4, e5, e6, e7, e8]
  · intro d ls ls2 h hls hperm hc
    obtain ⟨s1, s2, s3, s4, ⟨ls1, hls1, hlab⟩, ⟨asg1, hasg1, hasg2⟩, s7, ⟨cs1, hcs1, hpc⟩⟩ :=
      calculate_hash_spec hc
    rw [hls] at hls1
    injection hls1 with hE
    subst hE
    have hbuild : IssueStorage.calculate_hash { d with labels := some ls2 } =
        some ⟨h.number, h.title, h.body, h.state, pySorted ls2, pySorted asg1,
          h.updated_at, h.comments⟩ :=
      calculate_hash_build s1 s2 s3 s4 rfl hasg1 s7 hcs1 hpc
    rw [hbuild]
    have hsort : pySorted ls2 = pySorted ls := pySorted_eq_of_perm hperm
    rw [hsort, ← hlab, ← hasg2]
  · intro d asg asg2 h hasg hperm hc
    obtain ⟨s1, s2, s3, s4, ⟨ls1, hls1, hlab⟩, ⟨asg1, hasg1, hasg2⟩, s7, ⟨cs1, hcs1, hpc⟩⟩ :=
      calculate_hash_spec hc
    rw [hasg] at hasg1
    injection hasg1 with hE
    subst hE
    have hbuild : IssueStorage.calculate_hash { d with assignees := some asg2 } =
        some ⟨h.number, h.title, h.body, h.state, pySorted ls1, pySorted asg2,
          h.updated_at, h.comments⟩ :=
      calculate_hash_build s1 s2 s3 s4 hls1 rfl s7 hcs1 hpc
    rw [hbuild]
    have hsort : pySorted asg2 = pySorted asg := pySorted_eq_of_perm hperm
    rw [hsort, ← hlab, ← hasg2]
  · intro d cs cs2 h h2 hcs hc1 hc2 hne heq
    subst heq
    obtain ⟨-, -, -, -, -, -, -, ⟨cs1, hcs1, hpc1⟩⟩ := calculate_hash_spec hc1
    obtain ⟨-, -, -, -, -, -, -, ⟨cs2b, hcs2, hpc2⟩⟩ := calculate_hash_spec hc2
    rw [hcs] at hcs1
    injection hcs1 with hE
    subst hE
    have hcs2c : some cs2 = some cs2b := hcs2
    injection hcs2c with hE2
    subst hE2
    exact hne (by rw [hpc1, hpc2])

/-- C3 witness: a permuted labels list yields the same fingerprint for
`wIssue`. -/
theorem hash_determinism_witness :
    IssueStorage.calculate_hash { wIssue with labels := some ["a", "b"] } = some wHash :=
  hash_determinism.2.1 wIssue ["b", "a"] ["a", "b"] wHash (by decide)
    (by decide) (by decide)
